import Mathlib

/-!
Verification of the AsyncEFSPurge purger against its specification.

The definitions below are a shallow embedding of `src/efspurge/purger.py` and
`src/efspurge/cli.py`:

* `process_file_updates` embeds `AsyncEFSPurger.process_file` as the sequence of
  statistics updates it performs, with the Python exceptions of the `stat` and
  `remove` calls made explicit as `Except PyErr` outcomes.
* `check_empty_directory`, `remove_empty_directories` and their helpers embed
  `AsyncEFSPurger._check_empty_directory` / `_remove_empty_directories` over an
  explicit file-system state (`FS`); `Path.resolve` is the identity here since
  the traversal never follows symlinks.
* `get_rate` embeds `RateTracker.get_rate`, `cutoff_time` the constructor's
  cutoff computation, and `cli_flags` the argparse table of `cli.py`.

Timestamps are rationals (Python floats), sizes and counters are naturals.
-/

/-- Python exception classes distinguished by the purger's handlers. -/
inductive PyErr
  | fileNotFound
  | permission
  | otherExc
deriving DecidableEq, Repr

/-- Result of `os.stat`: the fields `process_file` reads. -/
structure FileMeta where
  st_mtime : ℚ
  st_size : Nat
deriving DecidableEq, Repr

/-- One statistics-counter update issued through `update_stats`
(restricted to the counters the claims are about). -/
inductive StatUpd
  | scanned
  | toPurge
  | purged (size : Nat)
  | errInc
deriving DecidableEq, Repr

/-- Updates performed by the shared exception handlers of `process_file`:
`FileNotFoundError` is absorbed with no counter change, `PermissionError`
and any other exception increment `errors` by one. -/
def errHandlerUpdates : PyErr → List StatUpd
  | PyErr.fileNotFound => []
  | PyErr.permission => [StatUpd.errInc]
  | PyErr.otherExc => [StatUpd.errInc]

/-- Embedding of `AsyncEFSPurger.process_file` (purger.py lines 431-491) as the
ordered list of statistics updates of one call, given the outcome of the
`aiofiles.os.stat` call and (if reached) the `aiofiles.os.remove` call.
An exception anywhere in the body jumps to the handlers, so the updates after
the raising call are skipped, exactly as in the Python `try` block. -/
def process_file_updates (cutoff : ℚ) (dryRun : Bool)
    (statRes : Except PyErr FileMeta) (unlinkRes : Except PyErr Unit) :
    List StatUpd :=
  match statRes with
  | Except.error e => errHandlerUpdates e
  | Except.ok meta =>
    StatUpd.scanned ::
      (if meta.st_mtime < cutoff then
        StatUpd.toPurge ::
          (if dryRun then []
           else
             match unlinkRes with
             | Except.ok _ => [StatUpd.purged meta.st_size]
             | Except.error e => errHandlerUpdates e)
       else [])

def isScanned : StatUpd → Bool
  | StatUpd.scanned => true
  | _ => false

def isToPurge : StatUpd → Bool
  | StatUpd.toPurge => true
  | _ => false

def isPurged : StatUpd → Bool
  | StatUpd.purged _ => true
  | _ => false

def isErrInc : StatUpd → Bool
  | StatUpd.errInc => true
  | _ => false

/-- Value of the `files_scanned` counter after a list of updates. -/
def scannedCount (t : List StatUpd) : Nat := t.countP isScanned

/-- Value of the `files_to_purge` counter after a list of updates. -/
def toPurgeCount (t : List StatUpd) : Nat := t.countP isToPurge

/-- Value of the `files_purged` counter after a list of updates. -/
def purgedCount (t : List StatUpd) : Nat := t.countP isPurged

/-- Value of the `errors` counter after a list of updates. -/
def errorsCount (t : List StatUpd) : Nat := t.countP isErrInc

/-- The cutoff computed once in `AsyncEFSPurger.__init__` (purger.py line 311):
`time.time() - max_age_days * 86400`. -/
def cutoff_time (now maxAgeDays : ℚ) : ℚ := now - maxAgeDays * 86400

/-- Total `files_to_purge` contributed by a list of files, each given by the
outcomes of its `stat` and `remove` calls, for a run constructed at time `now`
with the given `max_age_days`. -/
def run_files_to_purge (now maxAgeDays : ℚ) (dryRun : Bool)
    (files : List (Except PyErr FileMeta × Except PyErr Unit)) : Nat :=
  (files.map (fun f =>
    toPurgeCount (process_file_updates (cutoff_time now maxAgeDays) dryRun f.1 f.2))).sum

lemma toPurgeCount_stat_error (cutoff : ℚ) (dryRun : Bool) (e : PyErr)
    (u : Except PyErr Unit) :
    toPurgeCount (process_file_updates cutoff dryRun (Except.error e) u) = 0 := by
  cases e <;> simp [process_file_updates, errHandlerUpdates, toPurgeCount, isToPurge]

lemma toPurgeCount_stat_ok (cutoff : ℚ) (dryRun : Bool) (m : FileMeta)
    (u : Except PyErr Unit) :
    toPurgeCount (process_file_updates cutoff dryRun (Except.ok m) u) =
      (if m.st_mtime < cutoff then 1 else 0) := by
  by_cases h : m.st_mtime < cutoff <;>
    cases dryRun <;>
      rcases u with e | v <;>
        first
        | (cases e <;>
            simp [process_file_updates, h, errHandlerUpdates, toPurgeCount,
              isToPurge, List.countP_cons, List.countP_nil])
        | simp [process_file_updates, h, toPurgeCount, isToPurge,
            List.countP_cons, List.countP_nil]

/-- C6: `process_file` never propagates an exception (its embedding is a total
function on all outcomes of `stat` and `remove`) and follows the error policy:
a `FileNotFoundError` from `stat` produces no counter change at all, a
`FileNotFoundError` from `remove` leaves `errors` unchanged, `PermissionError`
and any other exception increment `errors` by exactly one, wherever raised. -/
theorem process_file_error_policy (cutoff : ℚ) (dryRun : Bool)
    (u : Except PyErr Unit) (m : FileMeta) :
    process_file_updates cutoff dryRun (Except.error PyErr.fileNotFound) u = []
    ∧ errorsCount (process_file_updates cutoff dryRun (Except.error PyErr.permission) u) = 1
    ∧ errorsCount (process_file_updates cutoff dryRun (Except.error PyErr.otherExc) u) = 1
    ∧ errorsCount (process_file_updates cutoff false (Except.ok m)
        (Except.error PyErr.fileNotFound)) = 0
    ∧ errorsCount (process_file_updates cutoff false (Except.ok m)
        (Except.error PyErr.permission)) = (if m.st_mtime < cutoff then 1 else 0)
    ∧ errorsCount (process_file_updates cutoff false (Except.ok m)
        (Except.error PyErr.otherExc)) = (if m.st_mtime < cutoff then 1 else 0)
    ∧ errorsCount (process_file_updates cutoff dryRun (Except.ok m) (Except.ok ())) = 0 := by
  refine ⟨rfl, rfl, rfl, ?_, ?_, ?_, ?_⟩ <;>
    · by_cases h : m.st_mtime < cutoff <;>
        cases dryRun <;>
          simp [process_file_updates, h, errHandlerUpdates, errorsCount,
            isErrInc, List.countP_cons, List.countP_nil]

/-- C8: age-monotonicity. For a fixed construction time `now` and fixed file
outcomes, increasing `max_age_days` moves the cutoff `now - days * 86400` down,
and since a file is a purge candidate exactly when `st_mtime < cutoff`, the
`files_to_purge` total can only decrease. -/
theorem age_monotonicity (now d1 d2 : ℚ) (dryRun : Bool)
    (files : List (Except PyErr FileMeta × Except PyErr Unit))
    (h0 : 0 ≤ d1) (h12 : d1 ≤ d2) :
    cutoff_time now d2 ≤ cutoff_time now d1
    ∧ run_files_to_purge now d2 dryRun files ≤ run_files_to_purge now d1 dryRun files := by
  have hc : cutoff_time now d2 ≤ cutoff_time now d1 := by
    unfold cutoff_time
    have : d1 * 86400 ≤ d2 * 86400 := by nlinarith
    linarith
  refine ⟨hc, ?_⟩
  unfold run_files_to_purge
  apply List.sum_le_sum
  intro f _
  cases hf : f.1 with
  | error e => simp [toPurgeCount_stat_error]
  | ok m =>
    rw [toPurgeCount_stat_ok, toPurgeCount_stat_ok]
    split
    · next h2 =>
      have : m.st_mtime < cutoff_time now d1 := lt_of_lt_of_le h2 hc
      simp [this]
    · exact Nat.zero_le _

/-- Witness for `age_monotonicity` at a concrete input: one old file, one new
file, `now = 0`, days thresholds 1 and 2. -/
theorem age_monotonicity_witness :
    cutoff_time 0 2 ≤ cutoff_time 0 1
    ∧ run_files_to_purge 0 2 false
        [(Except.ok ⟨-100000, 3⟩, Except.ok ()), (Except.ok ⟨-200000, 5⟩, Except.ok ())]
      ≤ run_files_to_purge 0 1 false
        [(Except.ok ⟨-100000, 3⟩, Except.ok ()), (Except.ok ⟨-200000, 5⟩, Except.ok ())] :=
  age_monotonicity 0 1 2 false _ (by norm_num) (by norm_num)

/-! ### File-system model and the empty-directory reaper -/

/-- A path as its list of components (`pathlib.Path.parts` without the
anchor); the root of the scanned tree is `[]`-relative. -/
abbrev FsPath := List String

/-- `pathlib.Path.parent`: drop the last component. -/
def parentOf (p : FsPath) : FsPath := p.dropLast

/-- State of the scanned tree: the directories and regular files on disk. -/
structure FS where
  dirs : List FsPath
  files : List FsPath
deriving DecidableEq, Repr

/-- Number of entries `os.scandir` yields for `d`: the paths whose parent
is `d` (excluding `d` itself, so the root is not its own entry). -/
def FS.entriesCount (fs : FS) (d : FsPath) : Nat :=
  ((fs.dirs ++ fs.files).filter (fun p => decide (p ≠ d) && decide (parentOf p = d))).length

/-- `async_scandir` restricted to the entry count the reaper inspects;
raises `FileNotFoundError` when the directory does not exist. -/
def FS.scandirLen (fs : FS) (d : FsPath) : Except PyErr Nat :=
  if d ∈ fs.dirs then Except.ok (fs.entriesCount d) else Except.error PyErr.fileNotFound

/-- Set-valued add on a list representing a Python `set`. -/
def insertPath (l : List FsPath) (x : FsPath) : List FsPath :=
  if x ∈ l then l else l ++ [x]

/-- Descending insertion by component count, the order produced by
`sorted(dirs, key=lambda p: len(p.parts), reverse=True)`. -/
def insertDesc (x : FsPath) : List FsPath → List FsPath
  | [] => [x]
  | y :: ys => if y.length ≤ x.length then x :: y :: ys else y :: insertDesc x ys

/-- Sort a candidate set deepest-first (component count descending), the
sort used by both reaper passes (purger.py lines 574 and 689). -/
def sortByDepthDesc (l : List FsPath) : List FsPath := l.foldr insertDesc []

/-- Embedding of `AsyncEFSPurger._check_empty_directory` (purger.py lines
493-532): never insert the root; otherwise re-scan the directory under the
statistics lock and add it to the empty-directory set when it has no
entries; `FileNotFoundError` / `PermissionError` are ignored. `resolve` is
the identity since the model tree has no symlinks. -/
def check_empty_directory (root : FsPath) (fs : FS) (emptyDirs : List FsPath)
    (d : FsPath) : List FsPath :=
  if d = root then emptyDirs
  else
    match fs.scandirLen d with
    | Except.ok 0 => insertPath emptyDirs d
    | _ => emptyDirs

/-- Configuration of one reaper run. `rmdirFail d = true` injects an
`OSError` into the `aiofiles.os.rmdir` call on `d` (permission loss or a
concurrent writer), which the code catches in its `except OSError` arm. -/
structure ReapCfg where
  root : FsPath
  dryRun : Bool
  maxEmpty : Nat
  rmdirFail : FsPath → Bool

/-- Reaper-visible state: the tree plus the counters
`empty_dirs_to_delete`, `empty_dirs_deleted`, `errors`, the
`processed_dirs` set and (as a ghost) every path passed to `rmdir`. -/
structure ReapState where
  fs : FS
  toDelete : Nat
  deleted : Nat
  errors : Nat
  processed : List FsPath
  rmdirTrace : List FsPath
deriving Repr

/-- Parent re-check after a deletion (purger.py lines 634-647 and 765-775):
if the parent is not the directory itself, not processed and not the root,
and a fresh scandir shows it empty, schedule it for the cascading pass. -/
def parentCheckAdd (cfg : ReapCfg) (st : ReapState) (newPar : List FsPath)
    (d : FsPath) : List FsPath :=
  let parent := parentOf d
  if parent ≠ d ∧ parent ∉ st.processed then
    if parent ≠ cfg.root then
      match st.fs.scandirLen parent with
      | Except.ok 0 => insertPath newPar parent
      | _ => newPar
    else newPar
  else newPar

/-- One candidate of a reaper pass (the shared body of purger.py lines
580-662 and 709-788). Returns the new state, the updated new-empty-parents
set, and whether the rate limit fired (`break`). -/
def processCandidate (cfg : ReapCfg) (st : ReapState) (newPar : List FsPath)
    (d : FsPath) : ReapState × List FsPath × Bool :=
  if d ∈ st.processed then (st, newPar, false)
  else if 0 < cfg.maxEmpty ∧ cfg.maxEmpty ≤ st.toDelete then (st, newPar, true)
  else if d = cfg.root then
    ({ st with processed := insertPath st.processed d }, newPar, false)
  else
    match st.fs.scandirLen d with
    | Except.error _ =>
      ({ st with processed := insertPath st.processed d }, newPar, false)
    | Except.ok (_ + 1) =>
      ({ st with processed := insertPath st.processed d }, newPar, false)
    | Except.ok 0 =>
      if cfg.dryRun then
        let st1 := { st with toDelete := st.toDelete + 1,
                             processed := insertPath st.processed d }
        (st1, parentCheckAdd cfg st1 newPar d, false)
      else if cfg.rmdirFail d then
        ({ st with errors := st.errors + 1,
                   processed := insertPath st.processed d,
                   rmdirTrace := st.rmdirTrace ++ [d] }, newPar, false)
      else
        let st1 := { st with
                     fs := { dirs := st.fs.dirs.erase d, files := st.fs.files },
                     toDelete := st.toDelete + 1,
                     deleted := st.deleted + 1,
                     processed := insertPath st.processed d,
                     rmdirTrace := st.rmdirTrace ++ [d] }
        (st1, parentCheckAdd cfg st1 newPar d, false)

/-- First reaper pass over the sorted initial candidates; on `break` the
accumulated new-empty-parents set is kept for the cascading pass. -/
def runPass1 (cfg : ReapCfg) : ReapState → List FsPath → List FsPath →
    ReapState × List FsPath
  | st, newPar, [] => (st, newPar)
  | st, newPar, d :: rest =>
    let r := processCandidate cfg st newPar d
    if r.2.2 then (r.1, r.2.1) else runPass1 cfg r.1 r.2.1 rest

/-- One batch of the cascading pass; on `break` the code clears
`new_empty_parents` before leaving both loops. -/
def runPass2Batch (cfg : ReapCfg) : ReapState → List FsPath → List FsPath →
    ReapState × List FsPath
  | st, newPar, [] => (st, newPar)
  | st, newPar, d :: rest =>
    let r := processCandidate cfg st newPar d
    if r.2.2 then (r.1, []) else runPass2Batch cfg r.1 r.2.1 rest

/-- The `while new_empty_parents` cascade of pass 2, fueled: each real
iteration strictly lowers the maximal depth in the set, so any fuel at least
the initial maximal depth reproduces the loop exactly. -/
def runCascade (cfg : ReapCfg) : Nat → ReapState → List FsPath → ReapState
  | 0, st, _ => st
  | fuel + 1, st, newPar =>
    if newPar.isEmpty then st
    else
      let r := runPass2Batch cfg st [] (sortByDepthDesc newPar)
      runCascade cfg fuel r.1 r.2

/-- Embedding of `AsyncEFSPurger._remove_empty_directories` (purger.py lines
534-803): return immediately when no empty directory was found, otherwise run
pass 1 over the depth-sorted candidates and then the cascading pass 2. -/
def remove_empty_directories (cfg : ReapCfg) (fs : FS)
    (candidates : List FsPath) (fuel : Nat) : ReapState :=
  let st0 : ReapState := ⟨fs, 0, 0, 0, [], []⟩
  if candidates.isEmpty then st0
  else
    let r := runPass1 cfg st0 [] (sortByDepthDesc candidates)
    runCascade cfg fuel r.1 r.2

/-! ### Branch analysis of one reaper candidate -/

lemma processCandidate_spec (cfg : ReapCfg) (st : ReapState) (np : List FsPath)
    (d : FsPath) :
    ((processCandidate cfg st np d).1 = st
      ∨ (processCandidate cfg st np d).1 =
          { st with processed := insertPath st.processed d })
    ∨ (¬(0 < cfg.maxEmpty ∧ cfg.maxEmpty ≤ st.toDelete) ∧ d ≠ cfg.root ∧
       (cfg.dryRun = true ∧
          (processCandidate cfg st np d).1 =
            { st with toDelete := st.toDelete + 1,
                      processed := insertPath st.processed d }
        ∨ cfg.dryRun = false ∧
          (processCandidate cfg st np d).1 =
            { st with errors := st.errors + 1,
                      processed := insertPath st.processed d,
                      rmdirTrace := st.rmdirTrace ++ [d] }
        ∨ cfg.dryRun = false ∧
          (processCandidate cfg st np d).1 =
            { st with fs := { dirs := st.fs.dirs.erase d, files := st.fs.files },
                      toDelete := st.toDelete + 1, deleted := st.deleted + 1,
                      processed := insertPath st.processed d,
                      rmdirTrace := st.rmdirTrace ++ [d] })) := by
  by_cases h1 : d ∈ st.processed
  · unfold processCandidate
    rw [if_pos h1]
    exact Or.inl (Or.inl rfl)
  by_cases h2 : 0 < cfg.maxEmpty ∧ cfg.maxEmpty ≤ st.toDelete
  · unfold processCandidate
    rw [if_neg h1, if_pos h2]
    exact Or.inl (Or.inl rfl)
  by_cases h3 : d = cfg.root
  · unfold processCandidate
    rw [if_neg h1, if_neg h2, if_pos h3]
    exact Or.inl (Or.inr rfl)
  rcases hs : st.fs.scandirLen d with e | n
  · unfold processCandidate
    rw [if_neg h1, if_neg h2, if_neg h3, hs]
    exact Or.inl (Or.inr rfl)
  rcases n with _ | m
  · by_cases hd : cfg.dryRun = true
    · unfold processCandidate
      rw [if_neg h1, if_neg h2, if_neg h3, hs, if_pos hd]
      exact Or.inr ⟨h2, h3, Or.inl ⟨hd, rfl⟩⟩
    · have hd' : cfg.dryRun = false := by simpa using hd
      by_cases hf : cfg.rmdirFail d = true
      · unfold processCandidate
        rw [if_neg h1, if_neg h2, if_neg h3, hs, if_neg hd, if_pos hf]
        exact Or.inr ⟨h2, h3, Or.inr (Or.inl ⟨hd', rfl⟩)⟩
      · unfold processCandidate
        rw [if_neg h1, if_neg h2, if_neg h3, hs, if_neg hd, if_neg hf]
        exact Or.inr ⟨h2, h3, Or.inr (Or.inr ⟨hd', rfl⟩)⟩
  · unfold processCandidate
    rw [if_neg h1, if_neg h2, if_neg h3, hs]
    exact Or.inl (Or.inr rfl)

lemma processCandidate_limit (cfg : ReapCfg) (st : ReapState) (np : List FsPath)
    (d : FsPath) (hd : d ∉ st.processed)
    (hk : 0 < cfg.maxEmpty) (hge : cfg.maxEmpty ≤ st.toDelete) :
    processCandidate cfg st np d = (st, np, true) := by
  unfold processCandidate
  rw [if_neg hd, if_pos ⟨hk, hge⟩]

/-- Transfer of a state invariant through one pass and the cascade. -/
lemma runPass1_inv {cfg : ReapCfg} {P : ReapState → Prop}
    (hstep : ∀ st np d, P st → P (processCandidate cfg st np d).1) :
    ∀ (l : List FsPath) (st : ReapState) (np : List FsPath),
      P st → P (runPass1 cfg st np l).1
  | [], st, np, h => h
  | d :: rest, st, np, h => by
    rw [runPass1]
    by_cases hb : (processCandidate cfg st np d).2.2
    · simpa [hb] using hstep st np d h
    · simpa [hb] using runPass1_inv hstep rest _ _ (hstep st np d h)

lemma runPass2Batch_inv {cfg : ReapCfg} {P : ReapState → Prop}
    (hstep : ∀ st np d, P st → P (processCandidate cfg st np d).1) :
    ∀ (l : List FsPath) (st : ReapState) (np : List FsPath),
      P st → P (runPass2Batch cfg st np l).1
  | [], st, np, h => h
  | d :: rest, st, np, h => by
    rw [runPass2Batch]
    by_cases hb : (processCandidate cfg st np d).2.2
    · simpa [hb] using hstep st np d h
    · simpa [hb] using runPass2Batch_inv hstep rest _ _ (hstep st np d h)

lemma runCascade_inv {cfg : ReapCfg} {P : ReapState → Prop}
    (hstep : ∀ st np d, P st → P (processCandidate cfg st np d).1) :
    ∀ (fuel : Nat) (st : ReapState) (np : List FsPath),
      P st → P (runCascade cfg fuel st np)
  | 0, st, np, h => h
  | fuel + 1, st, np, h => by
    rw [runCascade]
    by_cases he : np.isEmpty
    · simpa [he] using h
    · simpa [he] using
        runCascade_inv hstep fuel _ _ (runPass2Batch_inv hstep _ _ _ h)

lemma remove_empty_directories_inv {cfg : ReapCfg} {P : ReapState → Prop}
    (fs : FS) (cands : List FsPath) (fuel : Nat)
    (hstep : ∀ st np d, P st → P (processCandidate cfg st np d).1)
    (hinit : P ⟨fs, 0, 0, 0, [], []⟩) :
    P (remove_empty_directories cfg fs cands fuel) := by
  unfold remove_empty_directories
  by_cases hc : cands.isEmpty
  · simpa [hc] using hinit
  · simpa [hc] using
      runCascade_inv hstep fuel _ _ (runPass1_inv hstep _ _ _ hinit)

lemma mem_insertPath {x y : FsPath} {l : List FsPath} (h : x ∈ insertPath l y) :
    x ∈ l ∨ x = y := by
  unfold insertPath at h
  split at h
  · exact Or.inl h
  · rcases List.mem_append.1 h with h | h
    · exact Or.inl h
    · exact Or.inr (List.mem_singleton.1 h)

lemma step_root_safe (cfg : ReapCfg) :
    ∀ (st : ReapState) (np : List FsPath) (d : FsPath),
      (cfg.root ∉ st.rmdirTrace ∧ cfg.root ∈ st.fs.dirs) →
      (cfg.root ∉ (processCandidate cfg st np d).1.rmdirTrace
        ∧ cfg.root ∈ (processCandidate cfg st np d).1.fs.dirs) := by
  intro st np d hP
  rcases processCandidate_spec cfg st np d with
    (heq | heq) | ⟨-, hne, (⟨-, heq⟩ | ⟨-, heq⟩ | ⟨-, heq⟩)⟩
  · rw [heq]; exact hP
  · rw [heq]; exact hP
  · rw [heq]; exact hP
  · rw [heq]
    refine ⟨?_, hP.2⟩
    simp only [List.mem_append, List.mem_singleton]
    rintro (h | h)
    · exact hP.1 h
    · exact hne h.symm
  · rw [heq]
    constructor
    · simp only [List.mem_append, List.mem_singleton]
      rintro (h | h)
      · exact hP.1 h
      · exact hne h.symm
    · exact (List.mem_erase_of_ne (fun h => hne h.symm)).2 hP.2

/-- C1: the root directory is never removed. The scanner's empty-directory
check never inserts the (resolved) root into the empty-directory set, no
`rmdir` of either reaper pass is ever issued on the root — whatever the
candidate set, the tree, the rate limit, the dry-run flag or the injected
`rmdir` failures — and the root is still on disk after the reaper runs. -/
theorem root_never_removed (cfg : ReapCfg) (fs fsx : FS) (ed : List FsPath)
    (d : FsPath) (cands : List FsPath) (fuel : Nat)
    (hed : cfg.root ∉ ed) (hroot : cfg.root ∈ fs.dirs) :
    cfg.root ∉ check_empty_directory cfg.root fsx ed d
    ∧ cfg.root ∉ (remove_empty_directories cfg fs cands fuel).rmdirTrace
    ∧ cfg.root ∈ (remove_empty_directories cfg fs cands fuel).fs.dirs := by
  have hreap :
      cfg.root ∉ (remove_empty_directories cfg fs cands fuel).rmdirTrace
      ∧ cfg.root ∈ (remove_empty_directories cfg fs cands fuel).fs.dirs :=
    remove_empty_directories_inv fs cands fuel (step_root_safe cfg)
      ⟨List.not_mem_nil _, hroot⟩
  refine ⟨?_, hreap.1, hreap.2⟩
  intro hmem
  by_cases hd : d = cfg.root
  · unfold check_empty_directory at hmem
    rw [if_pos hd] at hmem
    exact hed hmem
  · unfold check_empty_directory at hmem
    rw [if_neg hd] at hmem
    rcases hs : fsx.scandirLen d with e | n
    · rw [hs] at hmem
      exact hed hmem
    · rcases n with _ | m
      · rw [hs] at hmem
        rcases mem_insertPath hmem with h | h
        · exact hed h
        · exact hd h.symm
      · rw [hs] at hmem
        exact hed hmem

/-- Witness for `root_never_removed`: a root holding one empty directory,
live mode, unlimited rate limit. -/
theorem root_never_removed_witness :
    ([] : FsPath) ∉ check_empty_directory [] ⟨[[], ["a"]], []⟩ [] []
    ∧ ([] : FsPath) ∉ (remove_empty_directories
        ⟨[], false, 0, fun _ => false⟩ ⟨[[], ["a"]], []⟩ [["a"]] 3).rmdirTrace
    ∧ ([] : FsPath) ∈ (remove_empty_directories
        ⟨[], false, 0, fun _ => false⟩ ⟨[[], ["a"]], []⟩ [["a"]] 3).fs.dirs :=
  root_never_removed ⟨[], false, 0, fun _ => false⟩ ⟨[[], ["a"]], []⟩
    ⟨[[], ["a"]], []⟩ [] [] [["a"]] 3 (List.not_mem_nil _) (by decide)

lemma step_live_eq (cfg : ReapCfg) (hlive : cfg.dryRun = false) :
    ∀ (st : ReapState) (np : List FsPath) (d : FsPath),
      st.toDelete = st.deleted →
      (processCandidate cfg st np d).1.toDelete
        = (processCandidate cfg st np d).1.deleted := by
  intro st np d hP
  rcases processCandidate_spec cfg st np d with
    (heq | heq) | ⟨-, -, (⟨hdry, heq⟩ | ⟨-, heq⟩ | ⟨-, heq⟩)⟩
  · rw [heq]; exact hP
  · rw [heq]; exact hP
  · rw [hlive] at hdry; exact absurd hdry (by simp)
  · rw [heq]; exact hP
  · rw [heq]
    simpa using hP

/-- C10: in live mode (`dry_run = false`) the counters
`empty_dirs_to_delete` and `empty_dirs_deleted` coincide for the whole run:
both are incremented together, only when an `rmdir` succeeds (see the
success arm of `processCandidate`), so a skipped candidate (root, non-empty
re-check, `FileNotFoundError`) or a failed `rmdir` advances neither counter
and does not count toward the `max_empty_dirs_to_delete` limit, which reads
`empty_dirs_to_delete`. -/
theorem live_toDelete_eq_deleted (cfg : ReapCfg) (fs : FS)
    (cands : List FsPath) (fuel : Nat) (hlive : cfg.dryRun = false) :
    (remove_empty_directories cfg fs cands fuel).toDelete
      = (remove_empty_directories cfg fs cands fuel).deleted :=
  remove_empty_directories_inv fs cands fuel (step_live_eq cfg hlive) rfl

/-- Witness for `live_toDelete_eq_deleted`: a live run that deletes one
directory and fails on another. -/
theorem live_toDelete_eq_deleted_witness :
    (remove_empty_directories ⟨[], false, 0, fun d => decide (d = ["b"])⟩
        ⟨[[], ["a"], ["b"]], []⟩ [["a"], ["b"]] 3).toDelete
      = (remove_empty_directories ⟨[], false, 0, fun d => decide (d = ["b"])⟩
        ⟨[[], ["a"], ["b"]], []⟩ [["a"], ["b"]] 3).deleted :=
  live_toDelete_eq_deleted _ _ _ _ rfl

lemma step_toDelete_bound (cfg : ReapCfg) (hk : 0 < cfg.maxEmpty) :
    ∀ (st : ReapState) (np : List FsPath) (d : FsPath),
      st.toDelete ≤ cfg.maxEmpty →
      (processCandidate cfg st np d).1.toDelete ≤ cfg.maxEmpty := by
  intro st np d hP
  rcases processCandidate_spec cfg st np d with
    (heq | heq) | ⟨hguard, -, (⟨-, heq⟩ | ⟨-, heq⟩ | ⟨-, heq⟩)⟩
  · rw [heq]; exact hP
  · rw [heq]; exact hP
  · rw [heq]
    have : ¬ cfg.maxEmpty ≤ st.toDelete := fun h => hguard ⟨hk, h⟩
    simp only []
    omega
  · rw [heq]; exact hP
  · rw [heq]
    have : ¬ cfg.maxEmpty ≤ st.toDelete := fun h => hguard ⟨hk, h⟩
    simp only []
    omega

/-- C4 (amended): with `max_empty_dirs_to_delete = k > 0` both reaper passes
check the limit against `empty_dirs_to_delete` (never `empty_dirs_deleted`)
before each candidate — once that counter has reached `k`, the next
unprocessed candidate terminates the pass without touching the state — so
`empty_dirs_to_delete` never exceeds `k`. Only counted deletions
(successful `rmdir`s in live mode, would-delete candidates in dry-run)
advance the counter, so the number of attempted `rmdir` calls can exceed
`k` when some of them fail. -/
theorem rate_limit_bounds_toDelete (cfg : ReapCfg) (fs : FS)
    (cands : List FsPath) (fuel : Nat) (st : ReapState) (np : List FsPath)
    (d : FsPath) (hk : 0 < cfg.maxEmpty) (hd : d ∉ st.processed)
    (hge : cfg.maxEmpty ≤ st.toDelete) :
    (remove_empty_directories cfg fs cands fuel).toDelete ≤ cfg.maxEmpty
    ∧ processCandidate cfg st np d = (st, np, true) :=
  ⟨remove_empty_directories_inv fs cands fuel (step_toDelete_bound cfg hk)
      (Nat.zero_le _),
    processCandidate_limit cfg st np d hd hk hge⟩

/-- Witness for `rate_limit_bounds_toDelete`: `k = 1` with two empty
sibling candidates. -/
theorem rate_limit_bounds_toDelete_witness :
    (remove_empty_directories ⟨[], false, 1, fun _ => false⟩
        ⟨[[], ["a"], ["b"]], []⟩ [["a"], ["b"]] 2).toDelete ≤ 1
    ∧ processCandidate ⟨[], false, 1, fun _ => false⟩
        ⟨⟨[[], ["b"]], []⟩, 1, 1, 0, [["a"]], [["a"]]⟩ [] ["b"]
      = (⟨⟨[[], ["b"]], []⟩, 1, 1, 0, [["a"]], [["a"]]⟩, [], true) :=
  rate_limit_bounds_toDelete ⟨[], false, 1, fun _ => false⟩
    ⟨[[], ["a"], ["b"]], []⟩ [["a"], ["b"]] 2
    ⟨⟨[[], ["b"]], []⟩, 1, 1, 0, [["a"]], [["a"]]⟩ [] ["b"]
    (by decide) (by decide) (by decide)

/-- C4 counterexample: the claim says reaping terminates after exactly `k`
attempted deletions. With `k = 1`, two empty sibling directories and the
first `rmdir` failing with `OSError`, the failed attempt does not advance
`empty_dirs_to_delete`, so a second `rmdir` is attempted: two attempted
deletions under a limit of one. -/
theorem rate_limit_attempts_cex :
    (remove_empty_directories
        ⟨[], false, 1, fun d => decide (d = ["a"])⟩
        ⟨[[], ["a"], ["b"]], []⟩ [["a"], ["b"]] 2).rmdirTrace = [["a"], ["b"]]
    ∧ (remove_empty_directories
        ⟨[], false, 1, fun d => decide (d = ["a"])⟩
        ⟨[[], ["a"], ["b"]], []⟩ [["a"], ["b"]] 2).errors = 1
    ∧ (remove_empty_directories
        ⟨[], false, 1, fun d => decide (d = ["a"])⟩
        ⟨[[], ["a"], ["b"]], []⟩ [["a"], ["b"]] 2).toDelete = 1 := by
  decide

lemma step_dry_preserve (cfg : ReapCfg) (fs0 : FS) (hdry : cfg.dryRun = true) :
    ∀ (st : ReapState) (np : List FsPath) (d : FsPath),
      (st.deleted = 0 ∧ st.rmdirTrace = [] ∧ st.fs = fs0) →
      ((processCandidate cfg st np d).1.deleted = 0
        ∧ (processCandidate cfg st np d).1.rmdirTrace = []
        ∧ (processCandidate cfg st np d).1.fs = fs0) := by
  intro st np d hP
  rcases processCandidate_spec cfg st np d with
    (heq | heq) | ⟨-, -, (⟨-, heq⟩ | ⟨hlive, heq⟩ | ⟨hlive, heq⟩)⟩
  · rw [heq]; exact hP
  · rw [heq]; exact hP
  · rw [heq]; exact hP
  · rw [hdry] at hlive; exact absurd hlive (by simp)
  · rw [hdry] at hlive; exact absurd hlive (by simp)

lemma purgedCount_dry (cutoff : ℚ) (s : Except PyErr FileMeta)
    (u : Except PyErr Unit) :
    purgedCount (process_file_updates cutoff true s u) = 0 := by
  rcases s with e | m
  · cases e <;>
      simp [process_file_updates, errHandlerUpdates, purgedCount, isPurged,
        List.countP_cons, List.countP_nil]
  · by_cases h : m.st_mtime < cutoff <;>
      simp [process_file_updates, h, purgedCount, isPurged,
        List.countP_cons, List.countP_nil]

/-- C3 (amended): in a dry run no `unlink` or `rmdir` is issued —
`files_purged` and `empty_dirs_deleted` stay 0 and the tree is untouched —
and `files_to_purge` advances exactly as in a live run with the same `stat`
outcomes. `empty_dirs_to_delete`, however, need not match the live outcome:
it advances only for candidates still observed empty on the unmodified
tree, so directories that would only become empty after live deletions
(cascading parent collapse, or purged files) are not counted in dry-run. -/
theorem dry_run_no_mutation (cfg : ReapCfg) (fs : FS) (cands : List FsPath)
    (fuel : Nat) (cutoff : ℚ) (s : Except PyErr FileMeta)
    (u1 u2 : Except PyErr Unit) (hdry : cfg.dryRun = true) :
    (remove_empty_directories cfg fs cands fuel).deleted = 0
    ∧ (remove_empty_directories cfg fs cands fuel).rmdirTrace = []
    ∧ (remove_empty_directories cfg fs cands fuel).fs = fs
    ∧ purgedCount (process_file_updates cutoff true s u1) = 0
    ∧ toPurgeCount (process_file_updates cutoff true s u1)
        = toPurgeCount (process_file_updates cutoff false s u2) := by
  have hr := remove_empty_directories_inv fs cands fuel
    (step_dry_preserve cfg fs hdry) ⟨rfl, rfl, rfl⟩
  refine ⟨hr.1, hr.2.1, hr.2.2, purgedCount_dry cutoff s u1, ?_⟩
  rcases s with e | m
  · rw [toPurgeCount_stat_error, toPurgeCount_stat_error]
  · rw [toPurgeCount_stat_ok, toPurgeCount_stat_ok]

/-- Witness for `dry_run_no_mutation` on a concrete dry run. -/
theorem dry_run_no_mutation_witness :
    (remove_empty_directories ⟨[], true, 0, fun _ => false⟩
        ⟨[[], ["a"]], []⟩ [["a"]] 2).deleted = 0
    ∧ (remove_empty_directories ⟨[], true, 0, fun _ => false⟩
        ⟨[[], ["a"]], []⟩ [["a"]] 2).rmdirTrace = []
    ∧ (remove_empty_directories ⟨[], true, 0, fun _ => false⟩
        ⟨[[], ["a"]], []⟩ [["a"]] 2).fs = ⟨[[], ["a"]], []⟩
    ∧ purgedCount (process_file_updates 0 true (Except.ok ⟨-1, 7⟩) (Except.ok ())) = 0
    ∧ toPurgeCount (process_file_updates 0 true (Except.ok ⟨-1, 7⟩) (Except.ok ()))
        = toPurgeCount (process_file_updates 0 false (Except.ok ⟨-1, 7⟩) (Except.ok ())) :=
  dry_run_no_mutation ⟨[], true, 0, fun _ => false⟩ ⟨[[], ["a"]], []⟩
    [["a"]] 2 0 (Except.ok ⟨-1, 7⟩) (Except.ok ()) (Except.ok ()) rfl

/-- C3 counterexample: the claim also says `empty_dirs_to_delete` advances
exactly as it would in a live run on the same tree. On the tree `R/a/b`
with only `b` a scan-time candidate, the live run cascades (`rmdir b`
empties `a`) and counts two directories, while the dry run — which deletes
nothing, so `a` is still non-empty at its parent re-check — counts one. -/
theorem dry_run_toDelete_cex :
    (remove_empty_directories ⟨[], false, 0, fun _ => false⟩
        ⟨[[], ["a"], ["a", "b"]], []⟩ [["a", "b"]] 3).toDelete = 2
    ∧ (remove_empty_directories ⟨[], true, 0, fun _ => false⟩
        ⟨[[], ["a"], ["a", "b"]], []⟩ [["a", "b"]] 3).toDelete = 1 := by
  decide

lemma mem_insertDesc {x y : FsPath} {l : List FsPath} :
    y ∈ insertDesc x l ↔ y = x ∨ y ∈ l := by
  induction l with
  | nil => simp [insertDesc]
  | cons z zs ih =>
    by_cases h : z.length ≤ x.length
    · rw [insertDesc, if_pos h]
      simp [or_comm, or_left_comm]
    · rw [insertDesc, if_neg h]
      simp only [List.mem_cons, ih]
      tauto

lemma sorted_insertDesc {x : FsPath} {l : List FsPath}
    (h : l.Pairwise (fun a b => b.length ≤ a.length)) :
    (insertDesc x l).Pairwise (fun a b => b.length ≤ a.length) := by
  induction l with
  | nil => simp [insertDesc]
  | cons z zs ih =>
    rcases List.pairwise_cons.1 h with ⟨hz, hzs⟩
    by_cases hle : z.length ≤ x.length
    · rw [insertDesc, if_pos hle]
      refine List.pairwise_cons.2 ⟨?_, h⟩
      intro b hb
      rcases List.mem_cons.1 hb with rfl | hb
      · exact hle
      · exact le_trans (hz b hb) hle
    · rw [insertDesc, if_neg hle]
      refine List.pairwise_cons.2 ⟨?_, ih hzs⟩
      intro b hb
      rcases mem_insertDesc.1 hb with rfl | hb
      · omega
      · exact hz b hb

lemma sorted_sortByDepthDesc (l : List FsPath) :
    (sortByDepthDesc l).Pairwise (fun a b => b.length ≤ a.length) := by
  induction l with
  | nil => simp [sortByDepthDesc]
  | cons x xs ih => exact sorted_insertDesc ih

lemma mem_sortByDepthDesc {x : FsPath} {l : List FsPath} :
    x ∈ sortByDepthDesc l ↔ x ∈ l := by
  induction l with
  | nil => simp [sortByDepthDesc]
  | cons z zs ih =>
    show x ∈ insertDesc z (sortByDepthDesc zs) ↔ _
    rw [mem_insertDesc, ih]
    simp

/-- C5: deepest-first ordering. `sortByDepthDesc` — the sort applied to the
candidate set before pass 1 and to the new-empty-parents set before every
cascade iteration of pass 2 (see `remove_empty_directories` and
`runCascade`) — yields the candidates in descending component count and
keeps exactly the candidate set, so a path never appears before one of its
proper descendants: a parent is only considered after all its discovered
children. -/
theorem reap_sort_deepest_first (l : List FsPath) :
    (sortByDepthDesc l).Pairwise (fun a b => b.length ≤ a.length)
    ∧ (sortByDepthDesc l).Pairwise
        (fun a b => ¬(a ≠ b ∧ ∃ s, a ++ s = b))
    ∧ ∀ x, x ∈ sortByDepthDesc l ↔ x ∈ l := by
  refine ⟨sorted_sortByDepthDesc l, ?_, fun x => mem_sortByDepthDesc⟩
  refine (sorted_sortByDepthDesc l).imp ?_
  rintro a b hlen ⟨hne, s, rfl⟩
  rw [List.length_append] at hlen
  have hs : s.length = 0 := by omega
  rw [List.length_eq_zero] at hs
  subst hs
  exact hne (by simp)

/-! ### Rate tracker -/

/-- A sample recorded by `RateTracker.record`:
`(timestamp, phase, metric_type, count)`. -/
structure RSample where
  ts : ℚ
  phase : String
  metric : String
  count : Int
deriving DecidableEq, Repr

/-- The list comprehension of `RateTracker.get_rate` (purger.py line 117):
samples strictly newer than `now - window` matching phase and metric. -/
def relevantSamples (samples : List RSample) (now : ℚ) (phase metric : String)
    (window : ℚ) : List RSample :=
  samples.filter (fun s =>
    decide (now - window < s.ts) && decide (s.phase = phase)
      && decide (s.metric = metric))

/-- Embedding of `RateTracker.get_rate` (purger.py lines 99-125): 0 for a
non-positive window, 0 when no sample matches; otherwise
`sum(counts) / time_span` where `time_span` is last-minus-first timestamp
when more than one sample matches and defaults to `1.0` otherwise, with a
final guard returning 0 when the span is not positive. -/
def get_rate (samples : List RSample) (now : ℚ) (phase metric : String)
    (window : ℚ) : ℚ :=
  if window ≤ 0 then 0
  else
    match relevantSamples samples now phase metric window with
    | [] => 0
    | first :: rest =>
      if 0 < (if rest = [] then 1 else (rest.getLastD first).ts - first.ts) then
        ((first :: rest).map (fun s => (s.count : ℚ))).sum
          / (if rest = [] then 1 else (rest.getLastD first).ts - first.ts)
      else 0

/-- C7 (amended): `get_rate` filters samples with `timestamp > now − window`
matching phase and metric; it returns 0 for a non-positive window, 0 when no
sample matches, and, with at least two matching samples,
`sum(count) / (last.ts − first.ts)` when that span is positive and 0
otherwise. With exactly one matching sample the span defaults to `1.0`, so
the sample's count itself is returned (not 0). -/
theorem get_rate_spec (samples : List RSample) (now : ℚ) (phase metric : String)
    (window : ℚ) :
    (window ≤ 0 → get_rate samples now phase metric window = 0)
    ∧ (relevantSamples samples now phase metric window = [] →
        get_rate samples now phase metric window = 0)
    ∧ (∀ s, 0 < window →
        relevantSamples samples now phase metric window = [s] →
        get_rate samples now phase metric window = (s.count : ℚ))
    ∧ (∀ s r rest, 0 < window →
        relevantSamples samples now phase metric window = s :: r :: rest →
        (0 < ((r :: rest).getLastD s).ts - s.ts →
          get_rate samples now phase metric window
            = ((s :: r :: rest).map (fun x => (x.count : ℚ))).sum
                / (((r :: rest).getLastD s).ts - s.ts))
        ∧ (((r :: rest).getLastD s).ts - s.ts ≤ 0 →
          get_rate samples now phase metric window = 0)) := by
  refine ⟨?_, ?_, ?_, ?_⟩
  · intro h
    unfold get_rate
    rw [if_pos h]
  · intro h
    by_cases hw : window ≤ 0
    · unfold get_rate
      rw [if_pos hw]
    · unfold get_rate
      rw [if_neg hw, h]
  · intro s hw h
    unfold get_rate
    rw [if_neg (not_le.2 hw), h]
    simp
  · intro s r rest hw h
    constructor
    · intro hspan
      unfold get_rate
      rw [if_neg (not_le.2 hw), h]
      simp only [if_neg (List.cons_ne_nil r rest)]
      rw [if_pos hspan]
    · intro hspan
      unfold get_rate
      rw [if_neg (not_le.2 hw), h]
      simp only [if_neg (List.cons_ne_nil r rest)]
      rw [if_neg (not_lt.2 hspan)]

/-- Witness for `get_rate_spec`: the single-sample branch at a concrete
tracker state. -/
theorem get_rate_spec_witness :
    get_rate [⟨10, "scanning", "files", 7⟩] 10 "scanning" "files" 100
      = ((⟨10, "scanning", "files", 7⟩ : RSample).count : ℚ) :=
  (get_rate_spec [⟨10, "scanning", "files", 7⟩] 10 "scanning" "files" 100).2.2.1
    ⟨10, "scanning", "files", 7⟩ (by norm_num)
    (by
      have hp : ((10:ℚ) - 100 < 10) := by norm_num
      simp [relevantSamples, List.filter_cons, hp])

/-- C7 counterexample: the claim says `get_rate` returns 0 whenever fewer
than two samples match. With exactly one matching sample of count 5 the
filtered list has length one, yet `get_rate` returns 5, because the code
defaults the time span to `1.0` when `len(relevant) <= 1`. -/
theorem get_rate_single_sample_cex :
    relevantSamples [⟨10, "scanning", "files", 5⟩] 10 "scanning" "files" 100
      = [⟨10, "scanning", "files", 5⟩]
    ∧ get_rate [⟨10, "scanning", "files", 5⟩] 10 "scanning" "files" 100 = 5
    ∧ (5 : ℚ) ≠ 0 := by
  have hp : ((10:ℚ) - 100 < 10) := by norm_num
  have h1 : relevantSamples [⟨10, "scanning", "files", 5⟩] 10 "scanning" "files" 100
      = [⟨10, "scanning", "files", 5⟩] := by
    simp [relevantSamples, List.filter_cons, hp]
  refine ⟨h1, ?_, by norm_num⟩
  unfold get_rate
  rw [if_neg (by norm_num : ¬(100 : ℚ) ≤ 0), h1]
  norm_num

/-! ### Command-line interface -/

/-- One argparse flag of `cli.py` together with the environment variable its
default reads, if any. -/
structure CliFlag where
  flag : String
  envFallback : Option String
deriving DecidableEq, Repr

/-- The argparse table of `parse_args` (cli.py lines 12-122): every optional
flag in declaration order, paired with the `os.getenv` variable used for its
default. `--dry-run` is a plain `store_true` flag with no `os.getenv`
default, and `--version` is an argparse version action. -/
def cli_flags : List CliFlag := [
  ⟨"--max-age-days", some "EFSPURGE_MAX_AGE_DAYS"⟩,
  ⟨"--max-concurrency", some "EFSPURGE_MAX_CONCURRENCY"⟩,
  ⟨"--max-concurrency-scanning", some "EFSPURGE_MAX_CONCURRENCY_SCANNING"⟩,
  ⟨"--max-concurrency-deletion", some "EFSPURGE_MAX_CONCURRENCY_DELETION"⟩,
  ⟨"--memory-limit-mb", some "EFSPURGE_MEMORY_LIMIT_MB"⟩,
  ⟨"--task-batch-size", some "EFSPURGE_TASK_BATCH_SIZE"⟩,
  ⟨"--dry-run", none⟩,
  ⟨"--log-level", some "EFSPURGE_LOG_LEVEL"⟩,
  ⟨"--remove-empty-dirs", some "EFSPURGE_REMOVE_EMPTY_DIRS"⟩,
  ⟨"--max-empty-dirs-to-delete", some "EFSPURGE_MAX_EMPTY_DIRS_TO_DELETE"⟩,
  ⟨"--max-concurrent-subdirs", some "EFSPURGE_MAX_CONCURRENT_SUBDIRS"⟩,
  ⟨"--version", none⟩]

/-- Modelled from the spec: the `EFSPURGE_<UPPER_SNAKE>` naming scheme for
environment-variable fallbacks. -/
def upperSnakeChar (c : Char) : Char := if c = '-' then '_' else c.toUpper

/-- The environment variable the spec's naming scheme predicts for a flag:
strip the leading `--`, uppercase, dashes to underscores, with the
`EFSPURGE_` namespace. -/
def expectedEnvName (flag : String) : String :=
  "EFSPURGE_" ++ String.mk (((flag.drop 2).toList).map upperSnakeChar)

/-- C9 (amended): every CLI flag except `--dry-run` and `--version` reads
its default from the environment variable `EFSPURGE_<UPPER_SNAKE>` derived
from its name; `--dry-run` is a `store_true` flag with no environment
fallback at all, and `--version` is a version action. -/
theorem cli_env_fallbacks (f : CliFlag) (hf : f ∈ cli_flags)
    (hdry : f.flag ≠ "--dry-run") (hver : f.flag ≠ "--version") :
    f.envFallback = some (expectedEnvName f.flag) := by
  fin_cases hf <;>
    first
    | rfl
    | (exact absurd rfl hdry)
    | (exact absurd rfl hver)

/-- Witness for `cli_env_fallbacks` at the `--max-age-days` flag. -/
theorem cli_env_fallbacks_witness :
    (⟨"--max-age-days", some "EFSPURGE_MAX_AGE_DAYS"⟩ : CliFlag).envFallback
      = some (expectedEnvName "--max-age-days") :=
  cli_env_fallbacks ⟨"--max-age-days", some "EFSPURGE_MAX_AGE_DAYS"⟩
    (by decide) (by decide) (by decide)

/-- C9 counterexample: `--dry-run` is a CLI flag of the program, yet it has
no environment-variable fallback — in particular not `EFSPURGE_DRY_RUN` as
the claim asserts: the `add_argument("--dry-run", action="store_true", ...)`
call in cli.py passes no `default=os.getenv(...)`. -/
theorem cli_dry_run_no_env_cex :
    (cli_flags.filter (fun f => f.flag == "--dry-run")).map CliFlag.envFallback
      = [none]
    ∧ (⟨"--dry-run", none⟩ : CliFlag) ∈ cli_flags := by
  constructor
  · rfl
  · decide

/-! ### Counter invariant across a whole run -/

/-- The updates of tag `i` inside a tagged run trace, in order. -/
def projTag {n : Nat} (i : Fin n) (L : List (Fin n × StatUpd)) : List StatUpd :=
  (L.filter (fun x => decide (x.1 = i))).map Prod.snd

/-- A run trace of the scan phase: counter updates are serialized by the
statistics lock, so the global update sequence is an interleaving of the
per-file `process_file` update sequences — some tagging of the global trace
whose per-tag subsequences are exactly the per-file traces. -/
def IsRunTrace (traces : List (List StatUpd)) (t : List StatUpd) : Prop :=
  ∃ tagged : List (Fin traces.length × StatUpd),
    tagged.map Prod.snd = t
    ∧ ∀ i : Fin traces.length, projTag i tagged = traces.get i

/-- The counter chain `files_purged ≤ files_to_purge ≤ files_scanned`. -/
def BalancedCounts (t : List StatUpd) : Prop :=
  purgedCount t ≤ toPurgeCount t ∧ toPurgeCount t ≤ scannedCount t

lemma countP_map_snd_eq_sum {n : Nat} (p : StatUpd → Bool) :
    ∀ L : List (Fin n × StatUpd),
      (L.map Prod.snd).countP p = ∑ i : Fin n, (projTag i L).countP p
  | [] => by simp [projTag]
  | (j, u) :: L => by
    have ih := countP_map_snd_eq_sum p L
    have hproj : ∀ i : Fin n,
        (projTag i ((j, u) :: L)).countP p
          = (projTag i L).countP p + (if j = i then (if p u then 1 else 0) else 0) := by
      intro i
      unfold projTag
      rw [List.filter_cons]
      by_cases h : j = i
      · simp [h, List.countP_cons]
      · simp [h]
    calc ((((j, u) :: L).map Prod.snd).countP p)
        = (L.map Prod.snd).countP p + (if p u then 1 else 0) := by
          simp [List.countP_cons]
      _ = (∑ i : Fin n, (projTag i L).countP p) + (if p u then 1 else 0) := by
          rw [ih]
      _ = ∑ i : Fin n, (projTag i ((j, u) :: L)).countP p := by
          rw [Finset.sum_congr rfl (fun i _ => hproj i), Finset.sum_add_distrib,
            Finset.sum_ite_eq]
          simp

lemma projTag_take_append {n : Nat} (i : Fin n) (L : List (Fin n × StatUpd))
    (m : Nat) :
    projTag i (L.take m) ++ projTag i (L.drop m) = projTag i L := by
  unfold projTag
  rw [← List.map_append, ← List.filter_append, List.take_append_drop]

lemma process_file_updates_balanced (cutoff : ℚ) (dryRun : Bool)
    (s : Except PyErr FileMeta) (u : Except PyErr Unit) :
    ∀ m, BalancedCounts ((process_file_updates cutoff dryRun s u).take m) := by
  rcases s with e | meta
  · cases e <;>
      · intro m
        rcases m with _ | m <;>
          simp [process_file_updates, errHandlerUpdates, BalancedCounts,
            purgedCount, toPurgeCount, scannedCount, isPurged, isToPurge,
            isScanned, List.take_succ_cons, List.countP_cons]
  · by_cases hm : meta.st_mtime < cutoff
    · cases dryRun
      · rcases u with e | v
        · cases e <;>
            · intro m
              rcases m with _ | _ | _ | m <;>
                simp [process_file_updates, hm, errHandlerUpdates,
                  BalancedCounts, purgedCount, toPurgeCount, scannedCount,
                  isPurged, isToPurge, isScanned, List.take_succ_cons,
                  List.countP_cons]
        · intro m
          rcases m with _ | _ | _ | m <;>
            simp [process_file_updates, hm, BalancedCounts, purgedCount,
              toPurgeCount, scannedCount, isPurged, isToPurge, isScanned,
              List.take_succ_cons, List.countP_cons]
      · intro m
        rcases m with _ | _ | _ | m <;>
          simp [process_file_updates, hm, BalancedCounts, purgedCount,
            toPurgeCount, scannedCount, isPurged, isToPurge, isScanned,
            List.take_succ_cons, List.countP_cons]
    · intro m
      rcases m with _ | _ | m <;>
        simp [process_file_updates, hm, BalancedCounts, purgedCount,
          toPurgeCount, scannedCount, isPurged, isToPurge, isScanned,
          List.take_succ_cons, List.countP_cons]

/-- C2: at every point of a run — i.e. after any prefix of any interleaving
of the per-file `process_file` update sequences, and so also in the final
statistics — the counters satisfy
`files_purged ≤ files_to_purge ≤ files_scanned`: `files_scanned` is bumped
on every successful `stat`, `files_to_purge` only for the subset with
`st_mtime < cutoff`, and `files_purged` only after a successful `unlink` of
such a candidate. -/
theorem counters_monotone_chain (cutoff : ℚ) (dryRun : Bool)
    (files : List (Except PyErr FileMeta × Except PyErr Unit))
    (t p : List StatUpd)
    (hrun : IsRunTrace
      (files.map fun f => process_file_updates cutoff dryRun f.1 f.2) t)
    (hpre : ∃ q, p ++ q = t) :
    purgedCount p ≤ toPurgeCount p ∧ toPurgeCount p ≤ scannedCount p := by
  obtain ⟨tagged, htag, hproj⟩ := hrun
  obtain ⟨q, hq⟩ := hpre
  have hp : p = (tagged.take p.length).map Prod.snd := by
    rw [List.map_take, htag, ← hq, List.take_left]
  have hbal : ∀ i, BalancedCounts (projTag i (tagged.take p.length)) := by
    intro i
    have hdecomp := projTag_take_append i tagged p.length
    rw [hproj i] at hdecomp
    have hmem :
        (files.map fun f => process_file_updates cutoff dryRun f.1 f.2).get i
          ∈ files.map fun f => process_file_updates cutoff dryRun f.1 f.2 :=
      List.get_mem _ _ _
    obtain ⟨f, hfmem, hfe⟩ := List.mem_map.1 hmem
    have heqp : projTag i (tagged.take p.length)
        = ((files.map fun f => process_file_updates cutoff dryRun f.1 f.2).get i).take
            (projTag i (tagged.take p.length)).length := by
      rw [← hdecomp, List.take_left]
    rw [heqp, ← hfe]
    exact process_file_updates_balanced cutoff dryRun f.1 f.2 _
  constructor
  · rw [hp]
    show ((tagged.take p.length).map Prod.snd).countP isPurged
      ≤ ((tagged.take p.length).map Prod.snd).countP isToPurge
    rw [countP_map_snd_eq_sum, countP_map_snd_eq_sum]
    exact Finset.sum_le_sum fun i _ => (hbal i).1
  · rw [hp]
    show ((tagged.take p.length).map Prod.snd).countP isToPurge
      ≤ ((tagged.take p.length).map Prod.snd).countP isScanned
    rw [countP_map_snd_eq_sum, countP_map_snd_eq_sum]
    exact Finset.sum_le_sum fun i _ => (hbal i).2

/-- Witness for `counters_monotone_chain`: one old file processed live,
observed after its first two counter updates. -/
theorem counters_monotone_chain_witness :
    purgedCount [StatUpd.scanned, StatUpd.toPurge]
        ≤ toPurgeCount [StatUpd.scanned, StatUpd.toPurge]
    ∧ toPurgeCount [StatUpd.scanned, StatUpd.toPurge]
        ≤ scannedCount [StatUpd.scanned, StatUpd.toPurge] :=
  counters_monotone_chain 0 false [(Except.ok ⟨-1, 4⟩, Except.ok ())]
    [StatUpd.scanned, StatUpd.toPurge, StatUpd.purged 4]
    [StatUpd.scanned, StatUpd.toPurge]
    ⟨[(⟨0, by decide⟩, StatUpd.scanned), (⟨0, by decide⟩, StatUpd.toPurge),
      (⟨0, by decide⟩, StatUpd.purged 4)], rfl, by decide⟩
    ⟨[StatUpd.purged 4], rfl⟩
